import Mathlib

/-!
# Verification of the student-agent task pipeline

A shallow embedding of `src/student_agent_core.py` (rule-based task
extraction, title deduplication, and the greedy block scheduler), with
theorems checking the specification's claims against it.

## Modelling conventions

* Timestamps are absolute minutes (`ℤ`) in the single configured timezone
  `APP_TZ`.  The timezone is modelled as a fixed offset: `datetime.date()`
  is `t / 1440` and `datetime.time()` is `t % 1440` (minutes after local
  midnight).  Daylight-saving transitions are explicitly out of scope in the
  spec ("an unspecified edge case"), and all quantities in the program are
  whole minutes, so the minute-granularity model is exact for the code paths
  modelled here.
* The module-level configuration (`WORK_START`, `WORK_END`, `BLOCK_MINUTES`)
  together with the `daily_hours` argument is bundled into one explicit
  `SchedConfig` record, following the spec's configuration surface.
  Python's `daily_hours` float is modelled as `ℚ`; `int(daily_hours * 60)`
  truncates toward zero, modelled with `Int.tdiv` on the exact fraction.
* `dateparser`/`parse_possible_date` is an external collaborator
  (`free text → timestamp | none` per the spec) and is passed to the
  extractor as an explicit `resolver` parameter.
* `uuid4` task ids are external randomness; extractor-created tasks carry
  the placeholder id `""`.  The scheduler keeps ids abstract.
* The Python `while` loop in `plan_blocks` need not terminate for arbitrary
  configurations (this is settled by one of the claims), so the loop is
  embedded with explicit fuel: `none` means the fuel was exhausted while the
  loop guard still held.
-/

namespace StudentAgent

/-! ## Time model -/

/-- Local time of day in minutes, `datetime.time()` of an absolute minute
count under a fixed-offset timezone.  `Int` `%` is Euclidean, so the result
is always in `[0, 1440)`. -/
def timeOfDay (t : ℤ) : ℤ := t % 1440

/-- Local calendar date, `datetime.date()` as a day index. -/
def dayOf (t : ℤ) : ℤ := t / 1440

/-- `dt.replace(hour=h, minute=m, second=0, microsecond=0)`: same day,
time of day set to `hm` minutes after midnight. -/
def replaceHM (t hm : ℤ) : ℤ := t - timeOfDay t + hm

/-! ## Data model and configuration -/

/-- The planner configuration: `WORK_START`, `WORK_END`, `BLOCK_MINUTES`
(module globals of `student_agent_core.py`, "can be tweaked by the UI")
and the `daily_hours` argument of `plan_blocks`.  Work bounds are minutes
after local midnight. -/
structure SchedConfig where
  workStart : ℤ
  workEnd : ℤ
  blockMinutes : ℤ
  dailyHours : ℚ
deriving DecidableEq

/-- The module defaults: 9:00–21:00, 50-minute blocks, 2.0 daily hours. -/
def defaultConfig : SchedConfig :=
  { workStart := 540, workEnd := 1260, blockMinutes := 50, dailyHours := 2 }

/-- `int(daily_hours * 60)` from line 194.  Python's `int()` truncates
toward zero; on the exact fraction `num/den` of `daily_hours` that is the
truncating division `Int.tdiv` of `num * 60` by `den`. -/
def capOf (cfg : SchedConfig) : ℤ :=
  (cfg.dailyHours.num * 60).tdiv cfg.dailyHours.den

/-- The `Task` pydantic model (lines 31–38).  `due` is an absolute minute
count; `est_minutes`, `tag`, `source` are optional as in the source. -/
structure Task where
  id : String
  title : String
  due : Option ℤ
  est_minutes : Option ℤ
  tag : Option String
  priority : ℤ
  source : Option String
deriving DecidableEq

/-- A scheduled block (the dict built at lines 206–213).  The source's
`end` key is a Lean keyword, so it is called `stop` here. -/
structure Block where
  task_id : String
  title : String
  start : ℤ
  stop : ℤ
  due : Option ℤ
  source : Option String
deriving DecidableEq

/-! ## Scheduling (`next_work_start`, `plan_blocks`, lines 171–217) -/

/-- `next_work_start` (lines 171–178). -/
def next_work_start (cfg : SchedConfig) (after : ℤ) : ℤ :=
  if timeOfDay after < cfg.workStart then replaceHM after cfg.workStart
  else if cfg.workEnd ≤ timeOfDay after then replaceHM (after + 1440) cfg.workStart
  else after

/-- `remaining = max(30, int(t.est_minutes or 60))` (line 188).  Python's
`or` replaces both `None` and the falsy `0` by `60`. -/
def initialRemaining (t : Task) : ℤ :=
  max 30 (match t.est_minutes with
          | none => 60
          | some e => if e = 0 then 60 else e)

/-- `last_allowed` (line 190): `due - 1 hour`, or `now + 14 days`. -/
def lastAllowed (now : ℤ) (t : Task) : ℤ :=
  match t.due with
  | some d => d - 60
  | none => now + 14 * 1440

/-- Display title for a block: `f"[{t.tag}] {t.title}" if t.tag else t.title`. -/
def blockTitle (t : Task) : String :=
  match t.tag with
  | some tg => "[" ++ tg ++ "] " ++ t.title
  | none => t.title

/-- The mutable state of the per-task `while` loop: `remaining`, `cursor`,
and the shared `day_budget` dictionary (a total function defaulting to `0`,
i.e. `day_budget.get(day_key, 0)`) and `blocks` accumulator. -/
structure LoopState where
  remaining : ℤ
  cursor : ℤ
  budget : ℤ → ℤ
  blocks : List Block

/-- One pass through the body of the `while` loop (lines 192–216),
assuming the guard `remaining > 0 and cursor <= last_allowed` held. -/
def taskStep (cfg : SchedConfig) (t : Task) (s : LoopState) : LoopState :=
  let day_key := dayOf s.cursor
  let used := s.budget day_key
  let cap := capOf cfg
  if cap ≤ used then
    { s with cursor := next_work_start cfg (replaceHM s.cursor cfg.workEnd + 1) }
  else
    let block_len := min cfg.blockMinutes (min s.remaining (cap - used))
    let block_end := s.cursor + block_len
    if cfg.workEnd < timeOfDay block_end then
      { s with cursor := next_work_start cfg (replaceHM s.cursor cfg.workEnd + 1) }
    else
      { remaining := s.remaining - block_len
        cursor := block_end + 10
        budget := fun d => if d = day_key then used + block_len else s.budget d
        blocks := s.blocks ++
          [{ task_id := t.id, title := blockTitle t, start := s.cursor,
             stop := block_end, due := t.due, source := t.source }] }

/-- The `while remaining > 0 and cursor <= last_allowed` loop (line 191),
with fuel; `none` means the fuel ran out while the guard still held. -/
def taskLoop (cfg : SchedConfig) (t : Task) (la : ℤ) :
    ℕ → LoopState → Option LoopState
  | 0, s => if 0 < s.remaining ∧ s.cursor ≤ la then none else some s
  | fuel + 1, s =>
      if 0 < s.remaining ∧ s.cursor ≤ la then
        taskLoop cfg t la fuel (taskStep cfg t s)
      else some s

/-- Sort key comparison for line 183:
`sorted(tasks, key=lambda t: (t.priority, t.due or (now+timedelta(days=30))))`.
A task with no due date gets the synthetic key `now + 30 days`. -/
def dueKey (now : ℤ) (t : Task) : ℤ := t.due.getD (now + 30 * 1440)

/-- Lexicographic "less or equal" on the sort key. -/
def taskLE (now : ℤ) (a b : Task) : Bool :=
  decide (a.priority < b.priority ∨
          (a.priority = b.priority ∧ dueKey now a ≤ dueKey now b))

/-- `by_priority = sorted(tasks, key=...)` (line 183).  Python's `sorted`
and `List.insertionSort` are both stable sorts, and stable sorts with
respect to one total preorder agree on every input, so this is the same
list Python produces. -/
def sortTasks (now : ℤ) (tasks : List Task) : List Task :=
  tasks.insertionSort (fun a b => taskLE now a b = true)

/-- The state threaded from one task to the next: the shared `day_budget`
dictionary and the `blocks` list (lines 184–186). -/
structure SchedState where
  budget : ℤ → ℤ
  blocks : List Block

/-- Scheduling of one task (lines 187–216): `remaining` and `cursor` are
re-initialised, the day budget and blocks are carried over. -/
def scheduleTask (cfg : SchedConfig) (now : ℤ) (fuel : ℕ) (st : SchedState)
    (t : Task) : Option SchedState :=
  (taskLoop cfg t (lastAllowed now t) fuel
      { remaining := initialRemaining t, cursor := next_work_start cfg now,
        budget := st.budget, blocks := st.blocks }).map
    (fun s => { budget := s.budget, blocks := s.blocks })

/-- `plan_blocks` (lines 180–217), parameterised by `now` and fuel. -/
def plan_blocks (cfg : SchedConfig) (now : ℤ) (fuel : ℕ)
    (tasks : List Task) : Option (List Block) :=
  ((sortTasks now tasks).foldl
      (fun acc t => acc.bind (fun st => scheduleTask cfg now fuel st t))
      (some { budget := fun _ => 0, blocks := [] })).map
    (fun st => st.blocks)

/-! ## Character classes (ASCII fragment of Python `re` / `str`)

The inputs the claims exercise are ASCII, so the Unicode closure of
Python's `\s`, `\w`, `IGNORECASE` and `str.lower`/`str.strip` is modelled
on the ASCII fragment. -/

/-- Python whitespace: the class matched by `\s` and stripped by
`str.strip()` (ASCII part). -/
def isSpaceC (c : Char) : Bool :=
  c = ' ' || c = '\t' || c = '\n' || c = '\r' || c = '\x0b' || c = '\x0c'

def isDigitC (c : Char) : Bool := '0' ≤ c && c ≤ '9'

def isAlphaC (c : Char) : Bool :=
  ('a' ≤ c && c ≤ 'z') || ('A' ≤ c && c ≤ 'Z')

/-- `\w`: word characters (ASCII part). -/
def isWordC (c : Char) : Bool := isAlphaC c || isDigitC c || c = '_'

def lowerC (c : Char) : Char := c.toLower

/-- `str.strip()`: drop leading and trailing whitespace. -/
def pyStrip (s : List Char) : List Char :=
  ((s.dropWhile isSpaceC).reverse.dropWhile isSpaceC).reverse

/-- `str.splitlines()` (ASCII line breaks; `\r\n` counts as one break,
and a trailing break produces no extra line). -/
def splitlinesAux (acc : List Char) : List Char → List (List Char)
  | [] => [acc.reverse]
  | '\r' :: '\n' :: rest =>
      acc.reverse :: (if rest.isEmpty then [] else splitlinesAux [] rest)
  | c :: rest =>
      if c = '\n' || c = '\r' || c = '\x0b' || c = '\x0c' then
        acc.reverse :: (if rest.isEmpty then [] else splitlinesAux [] rest)
      else splitlinesAux (c :: acc) rest

def splitlines (s : List Char) : List (List Char) :=
  if s.isEmpty then [] else splitlinesAux [] s

/-! ## A small backtracking regex core

Just enough of Python `re` for the four patterns of the source
(`DUE_PAT`, `EST_PAT`, `TAG_PAT` and the action-verb pattern), all of
which are compiled with `re.IGNORECASE`.  The matcher enumerates the
candidate parses of one pattern at one position **in Python's
backtracking priority order** (alternatives left to right, quantifiers
greedy), so the head of the list is the parse Python commits to. -/

/-- Pattern syntax: character classes, sequencing, ordered alternation,
greedy option, greedy star/plus/bounded repetition of a character class,
and the word-boundary assertion `\b`. -/
inductive RE where
  | eps : RE
  | cls (p : Char → Bool) : RE
  | seq (a b : RE) : RE
  | alt (a b : RE) : RE
  | opt (a : RE) : RE
  | starCls (p : Char → Bool) : RE
  | plusCls (p : Char → Bool) : RE
  | repCls (p : Char → Bool) (lo hi : ℕ) : RE
  | wordB : RE

/-- A candidate parse: consumed characters, new previous-character
context, remaining input. -/
abbrev ReOut := List Char × Option Char × List Char

/-- Greedy `p*`: all suffix splits, longest consumption first. -/
def clsStar (p : Char → Bool) : Option Char → List Char → List ReOut
  | prev, [] => [([], prev, [])]
  | prev, c :: rest =>
      (if p c then (clsStar p (some c) rest).map
          (fun r => (c :: r.1, r.2.1, r.2.2)) else [])
      ++ [([], prev, c :: rest)]

/-- Greedy `p{lo,hi}`: longest consumption first, at least `lo`. -/
def clsRep (p : Char → Bool) : ℕ → ℕ → Option Char → List Char → List ReOut
  | lo, 0, prev, s => if lo = 0 then [([], prev, s)] else []
  | lo, _ + 1, prev, [] => if lo = 0 then [([], prev, [])] else []
  | lo, hi + 1, prev, c :: rest =>
      (if p c then (clsRep p (lo - 1) hi (some c) rest).map
          (fun r => (c :: r.1, r.2.1, r.2.2)) else [])
      ++ (if lo = 0 then [([], prev, c :: rest)] else [])

def isWordOpt : Option Char → Bool
  | some c => isWordC c
  | none => false

/-- All parses of a pattern at the current position, in backtracking
priority order.  `prev` is the character before the position (for `\b`). -/
def reRun : RE → Option Char → List Char → List ReOut
  | .eps, prev, s => [([], prev, s)]
  | .cls _, _, [] => []
  | .cls p, _, c :: rest => if p c then [([c], some c, rest)] else []
  | .seq a b, prev, s =>
      (reRun a prev s).flatMap (fun r =>
        (reRun b r.2.1 r.2.2).map (fun q => (r.1 ++ q.1, q.2.1, q.2.2)))
  | .alt a b, prev, s => reRun a prev s ++ reRun b prev s
  | .opt a, prev, s => reRun a prev s ++ [([], prev, s)]
  | .starCls p, prev, s => clsStar p prev s
  | .plusCls p, _, s =>
      match s with
      | [] => []
      | c :: rest =>
          if p c then (clsStar p (some c) rest).map
            (fun r => (c :: r.1, r.2.1, r.2.2)) else []
  | .repCls p lo hi, prev, s => clsRep p lo hi prev s
  | .wordB, prev, s =>
      if isWordOpt prev != isWordOpt s.head? then [([], prev, s)] else []

/-- A case-insensitive literal (every pattern is `re.IGNORECASE`). -/
def litCI (w : String) : RE :=
  w.data.foldr (fun c acc => RE.seq (RE.cls (fun x => lowerC x = lowerC c)) acc)
    RE.eps

/-- Ordered alternation of a list of branches. -/
def altList : List RE → RE
  | [] => RE.cls (fun _ => false)
  | [r] => r
  | r :: rs => RE.alt r (altList rs)

/-- Match `pre (grp) post` at one position, returning the text captured by
`grp` of the first parse in priority order (Python's match). -/
def matchCapPost (pre grp post : RE) (prev : Option Char) (s : List Char) :
    Option (List Char) :=
  ((reRun pre prev s).flatMap (fun r =>
    (reRun grp r.2.1 r.2.2).flatMap (fun q =>
      (reRun post q.2.1 q.2.2).map (fun _ => q.1)))).head?

/-- `re.search` for `pre (grp) post`: leftmost position wins. -/
def searchCapPost (pre grp post : RE) : Option Char → List Char → Option (List Char)
  | prev, [] => matchCapPost pre grp post prev []
  | prev, c :: rest =>
      match matchCapPost pre grp post prev (c :: rest) with
      | some cap => some cap
      | none => searchCapPost pre grp post (some c) rest

/-- Match `pre (g1) mid (g2)` at one position (shape of `EST_PAT`). -/
def matchCap2 (pre g1 mid g2 : RE) (prev : Option Char) (s : List Char) :
    Option (List Char × List Char) :=
  ((reRun pre prev s).flatMap (fun r =>
    (reRun g1 r.2.1 r.2.2).flatMap (fun q1 =>
      (reRun mid q1.2.1 q1.2.2).flatMap (fun m =>
        (reRun g2 m.2.1 m.2.2).map (fun q2 => (q1.1, q2.1)))))).head?

/-- `re.search` for `pre (g1) mid (g2)`. -/
def searchCap2 (pre g1 mid g2 : RE) :
    Option Char → List Char → Option (List Char × List Char)
  | prev, [] => matchCap2 pre g1 mid g2 prev []
  | prev, c :: rest =>
      match matchCap2 pre g1 mid g2 prev (c :: rest) with
      | some caps => some caps
      | none => searchCap2 pre g1 mid g2 (some c) rest

/-! ## The source's patterns (lines 60–69 and 76) -/

def sStar : RE := RE.starCls isSpaceC
def sPlus : RE := RE.plusCls isSpaceC
def dRep (lo hi : ℕ) : RE := RE.repCls isDigitC lo hi

def weekdayRE : RE :=
  altList [litCI "Mon", litCI "Tue", litCI "Wed", litCI "Thu",
           litCI "Fri", litCI "Sat", litCI "Sun"]

/-- `DUE_PAT` before the capture group:
`(?:(?:due|deadline|submit|by)\s*:?|\b)\s*(?:on\s+)?`. -/
def duePre : RE :=
  .seq
    (.alt
      (.seq (altList [litCI "due", litCI "deadline", litCI "submit", litCI "by"])
        (.seq sStar (.opt (.cls (fun c => c = ':')))))
      .wordB)
    (.seq sStar (.opt (.seq (litCI "on") sPlus)))

/-- `DUE_PAT`'s capture group, first branch:
`(?:\b(?:Mon|...|Sun)\b)?\s*[A-Z]?[a-z]{2,9}\s+\d{1,2}(?:,\s*\d{4})?`.
Under `IGNORECASE`, `[A-Z]` and `[a-z]` both match any letter. -/
def dueGrpName : RE :=
  .seq (.opt (.seq .wordB (.seq weekdayRE .wordB)))
    (.seq sStar
      (.seq (.opt (.cls isAlphaC))
        (.seq (.repCls isAlphaC 2 9)
          (.seq sPlus
            (.seq (dRep 1 2)
              (.opt (.seq (.cls (fun c => c = ','))
                (.seq sStar (dRep 4 4)))))))))

/-- `DUE_PAT`'s capture group, second branch: `\d{1,2}/\d{1,2}(?:/\d{2,4})?`. -/
def dueGrpNumeric : RE :=
  .seq (dRep 1 2)
    (.seq (.cls (fun c => c = '/'))
      (.seq (dRep 1 2)
        (.opt (.seq (.cls (fun c => c = '/')) (dRep 2 4)))))

/-- `DUE_PAT`'s capture group, third branch:
`tomorrow|today|next\s+(?:Mon|...|Sun)`. -/
def dueGrpRelative : RE :=
  altList [litCI "tomorrow", litCI "today",
           .seq (litCI "next") (.seq sPlus weekdayRE)]

def dueGrp : RE := altList [dueGrpName, dueGrpNumeric, dueGrpRelative]

/-- `DUE_PAT.search(ln)` returning `group(1)` (line 80). -/
def dueSearch (ln : List Char) : Option (List Char) :=
  searchCapPost duePre dueGrp RE.eps none ln

/-- `EST_PAT` pieces: `(?:~?\s*)(\d+(?:\.\d+)?)\s*(h(?:ours?)?|m(?:in(?:s|utes)?)?)`. -/
def estPre : RE := .seq (.opt (.cls (fun c => c = '~'))) sStar

def estNumber : RE :=
  .seq (.plusCls isDigitC)
    (.opt (.seq (.cls (fun c => c = '.')) (.plusCls isDigitC)))

def estUnit : RE :=
  .alt (.seq (litCI "h") (.opt (.seq (litCI "our") (.opt (litCI "s")))))
    (.seq (litCI "m") (.opt (.seq (litCI "in") (.opt (.alt (litCI "s") (litCI "utes"))))))

/-- `EST_PAT.search(ln)` returning `(group(1), group(2))` (line 85). -/
def estSearch (ln : List Char) : Option (List Char × List Char) :=
  searchCap2 estPre estNumber sStar estUnit none ln

/-- `TAG_PAT`: `\b(CS\d{1,3}|Calc\s*3|Linear\s*Algebra|Physics|Project|Work|Personal)\b`. -/
def tagGrp : RE :=
  altList [.seq (litCI "CS") (dRep 1 3),
           .seq (litCI "Calc") (.seq sStar (.cls (fun c => c = '3'))),
           .seq (litCI "Linear") (.seq sStar (litCI "Algebra")),
           litCI "Physics", litCI "Project", litCI "Work", litCI "Personal"]

/-- `TAG_PAT.search(ln)` returning `group(0)` (which, the boundaries being
zero-width, is the capture). -/
def tagSearch (ln : List Char) : Option (List Char) :=
  searchCapPost RE.wordB tagGrp RE.wordB none ln

/-- The action-verb heuristic of line 76:
`\b(assign|finish|read|solve|submit|implement|study|review|fix|email|apply|prepare|meet|write)\b`. -/
def verbGrp : RE :=
  altList [litCI "assign", litCI "finish", litCI "read", litCI "solve",
           litCI "submit", litCI "implement", litCI "study", litCI "review",
           litCI "fix", litCI "email", litCI "apply", litCI "prepare",
           litCI "meet", litCI "write"]

def hasActionVerb (ln : List Char) : Bool :=
  (searchCapPost RE.wordB verbGrp RE.wordB none ln).isSome

/-! ## Rule-based extraction (lines 71–106) -/

def digitsToNat (ds : List Char) : ℕ :=
  ds.foldl (fun n c => 10 * n + (c.toNat - '0'.toNat)) 0

/-- Python's `round` applied to the exact fraction `p / q` (for `q > 0`):
round half to even.  (Binary floating-point artifacts of `float` are below
the granularity any claim here depends on.) -/
def roundHalfEven (p q : ℤ) : ℤ :=
  let f := p / q
  let rem := p - f * q
  if 2 * rem < q then f
  else if q < 2 * rem then f + 1
  else if f % 2 = 0 then f else f + 1

/-- Lines 87–88: `est = int(round(float(val) * (60 if unit.startswith('h')
else 1)))`.  The captured decimal literal `a.b` with `k` fractional digits
times the unit multiplier is the exact fraction
`(a·10^k + b)·mult / 10^k`. -/
def estOf (val unit : List Char) : ℤ :=
  let intPart := val.takeWhile (fun c => c ≠ '.')
  let fracPart := (val.dropWhile (fun c => c ≠ '.')).drop 1
  let mult : ℤ := if (unit.map lowerC).head? = some 'h' then 60 else 1
  roundHalfEven
    (((digitsToNat intPart * 10 ^ fracPart.length + digitsToNat fracPart : ℕ) : ℤ) * mult)
    ((10 : ℤ) ^ fracPart.length)

/-- The priority heuristic of lines 95–100, from the minutes until due. -/
def priorityFor (now : ℤ) (due : Option ℤ) : ℤ :=
  match due with
  | none => 3
  | some d =>
      if d - now ≤ 1440 then 1
      else if d - now ≤ 3 * 1440 then 2
      else if 14 * 1440 ≤ d - now then 4
      else 3

/-- One candidate line (lines 76–101).  `resolver` is the external
`parse_possible_date` collaborator. -/
def lineTask (resolver : List Char → Option ℤ) (now : ℤ)
    (source_name : String) (ln : List Char) : Option Task :=
  if hasActionVerb ln then
    let due := (dueSearch ln).bind resolver
    let est : ℤ :=
      match estSearch ln with
      | some (val, unit) => estOf val unit
      | none => 60
    some { id := "", title := String.mk ln, due := due,
           est_minutes := some est, tag := (tagSearch ln).map String.mk,
           priority := priorityFor now due, source := some source_name }
  else none

/-- `rule_based_extract` (lines 71–106). -/
def rule_based_extract (resolver : List Char → Option ℤ) (now : ℤ)
    (text : String) (source_name : String) : List Task :=
  let lines := ((splitlines text.data).map pyStrip).filter
    (fun l => !l.isEmpty)
  let tasks := lines.filterMap (lineTask resolver now source_name)
  if tasks.isEmpty && !(pyStrip text.data).isEmpty then
    [{ id := "",
       title := "Review: " ++
         String.mk (((pyStrip text.data).take 60).map
           (fun c => if c = '\n' then ' ' else c)) ++
         (if 60 < text.data.length then "..." else ""),
       due := none, est_minutes := some 60, tag := none, priority := 3,
       source := some source_name }]
  else tasks

/-! ## Deduplication (lines 160–168) -/

/-- `re.sub(r"\s+", " ", ...)`: collapse whitespace runs to one space. -/
def collapseWsAux : Bool → List Char → List Char
  | _, [] => []
  | prevSp, c :: rest =>
      if isSpaceC c then
        if prevSp then collapseWsAux true rest
        else ' ' :: collapseWsAux true rest
      else c :: collapseWsAux false rest

def collapseWs (s : List Char) : List Char := collapseWsAux false s

/-- `key = re.sub(r"\s+", " ", t.title.strip().lower())` (line 164). -/
def normKey (title : String) : String :=
  String.mk (collapseWs ((pyStrip title.data).map lowerC))

/-- The dedupe loop of lines 161–167, the `seen` set as a key list. -/
def dedupeAux (seen : List String) : List Task → List Task
  | [] => []
  | t :: rest =>
      if normKey t.title ∈ seen then dedupeAux seen rest
      else t :: dedupeAux (normKey t.title :: seen) rest

/-- De-duplication by normalized title (lines 160–168). -/
def dedupe (tasks : List Task) : List Task := dedupeAux [] tasks

/-! ## The spec-side description of deduplication (§4.4)

"Order-preserving … first occurrence wins; later duplicates are dropped
entirely": keep the head, drop every later task with the same normalized
key, recurse. -/

/-- Spec §4.4, stated as a recursion (for comparison with `dedupe`). -/
def keepFirstOccurrences : List Task → List Task
  | [] => []
  | t :: rest =>
      t :: keepFirstOccurrences
        (rest.filter (fun u => normKey u.title ≠ normKey t.title))
termination_by l => l.length
decreasing_by
  exact Nat.lt_succ_of_le (List.length_filter_le _ _)

/-! ## Configuration sanity predicates

`plan_blocks` manipulates work hours through `next_work_start` and the
`+ 10`-minute break without re-normalising across midnight.  The weaker
predicate is what the loop needs to always move the cursor forward; the
stronger one additionally keeps every block-end computation inside a
single day. -/

/-- Work hours that keep the scheduling cursor strictly advancing. -/
def SaneHours (cfg : SchedConfig) : Prop :=
  0 ≤ cfg.workStart ∧ cfg.workStart ≤ cfg.workEnd ∧
    cfg.workEnd ≤ 1438 ∧ 1 ≤ cfg.blockMinutes

/-- Work hours such that a block and its trailing break never cross
midnight.  Satisfied by the module defaults (9:00–21:00, 50-minute
blocks). -/
def SaneConfig (cfg : SchedConfig) : Prop :=
  SaneHours cfg ∧ cfg.workEnd + 10 + cfg.blockMinutes < 1440

/-- Per-day minutes of the emitted blocks, keyed like `day_budget`
(calendar date of the block start). -/
def daySum (d : ℤ) (bs : List Block) : ℤ :=
  ((bs.filter (fun b => dayOf b.start = d)).map (fun b => b.stop - b.start)).sum

/-- The block-shape properties of the claim about emitted blocks: length
at most `BLOCK_MINUTES`, end-of-day bound, start-of-day bound, positive
length. -/
def BlockShape (cfg : SchedConfig) (b : Block) : Prop :=
  b.stop - b.start ≤ cfg.blockMinutes ∧ timeOfDay b.stop ≤ cfg.workEnd ∧
    cfg.workStart ≤ timeOfDay b.start ∧ b.start < b.stop

/-- The day-cap invariant carried by the scheduler state: the
`day_budget` dictionary tracks exactly the per-day block sums and stays
below the cap. -/
def DayCapInv (cfg : SchedConfig) (st : SchedState) : Prop :=
  (∀ d, st.budget d = daySum d st.blocks) ∧ (∀ d, st.budget d ≤ capOf cfg)

/-- A fuel bound under which (for sane hours) every per-task loop
finishes: the cursor starts at `next_work_start now` and strictly
increases each iteration, and the loop stops once it passes
`last_allowed`. -/
def planFuel (cfg : SchedConfig) (now : ℤ) (tasks : List Task) : ℕ :=
  (tasks.map
      (fun t => (lastAllowed now t + 1 - next_work_start cfg now).toNat + 1)).foldr
    max 1

/-! ## Concrete instances used in counterexamples and witnesses -/

/-- A task with the given id, due date, estimate and priority. -/
def mkTask (i : String) (due : Option ℤ) (est : Option ℤ) (pri : ℤ) : Task :=
  { id := i, title := i, due := due, est_minutes := est, tag := none,
    priority := pri, source := none }

/-- Two no-due tasks of priorities 1 and 2 (cursor-reset counterexample). -/
def taskP1 : Task := mkTask "a" none (some 60) 1
def taskP2 : Task := mkTask "b" none (some 60) 2

/-- A UI-reachable configuration (start 5:00, end 23:00, 12 daily hours):
a block placed late in the evening may end exactly at midnight, after
which the cursor lands before work-start without being re-snapped. -/
def nightConfig : SchedConfig :=
  { workStart := 300, workEnd := 1380, blockMinutes := 50, dailyHours := 12 }

def nightTask : Task := mkTask "a" none (some 240) 3

/-- Work start 12:00 after work end 5:00: `next_work_start` then maps the
skip-forward target back onto the current cursor, and the `while` loop of
`plan_blocks` never advances. -/
def invertedConfig : SchedConfig :=
  { workStart := 720, workEnd := 300, blockMinutes := 50, dailyHours := 2 }

def invertedTask : Task := mkTask "a" none (some 60) 3

/-- The loop state at the start of `invertedTask`'s placement loop when
`now = 720`: `next_work_start` sends 12:00 to 12:00 the next day (time of
day 720), and the loop body maps this state to itself. -/
def stuckState : LoopState :=
  { remaining := 60, cursor := 2160, budget := fun _ => 0, blocks := [] }

/-- Priority-3 task due at minute 2000, estimate one hour. -/
def dueTaskNear : Task := mkTask "C" (some 2000) (some 60) 3

/-- Priority-3 task due 45 days from `now = 0`. -/
def dueTaskFar : Task := mkTask "A" (some 64800) (some 60) 3

/-- Priority-3 task with no due date. -/
def noDueTask : Task := mkTask "B" none (some 60) 3

/-- The §8 scenario line settled by one of the claims. -/
def scenarioLine : String := "Submit Lab 5 for CS61 on Fri Oct 3 by 11:59pm (~2h)."

/-- A non-blank text none of whose lines contains an action verb. -/
def quietText : String :=
  "plain notes about nothing in particular, a rather long string exceeding sixty characters"

/-- A date resolver that parses nothing (`parse_possible_date` returning
`None`, its behaviour on non-date text such as `"Lab 5"`). -/
def noneResolver : List Char → Option ℤ := fun _ => none

/-! # Lemmas: time arithmetic -/

theorem timeOfDay_nonneg (t : ℤ) : 0 ≤ timeOfDay t :=
  Int.emod_nonneg t (by norm_num)

theorem timeOfDay_lt (t : ℤ) : timeOfDay t < 1440 :=
  Int.emod_lt_of_pos t (by norm_num)

theorem timeOfDay_replaceHM {hm : ℤ} (t : ℤ) (h0 : 0 ≤ hm) (h1 : hm < 1440) :
    timeOfDay (replaceHM t hm) = hm := by
  unfold replaceHM timeOfDay
  omega

theorem timeOfDay_add {t k : ℤ} (h0 : 0 ≤ timeOfDay t + k)
    (h1 : timeOfDay t + k < 1440) : timeOfDay (t + k) = timeOfDay t + k := by
  unfold timeOfDay at *
  omega

/-- Under sane hours, `next_work_start` lands inside the work window. -/
theorem next_work_start_tod {cfg : SchedConfig} (h : SaneConfig cfg) (t : ℤ) :
    cfg.workStart ≤ timeOfDay (next_work_start cfg t) ∧
      timeOfDay (next_work_start cfg t) ≤ cfg.workEnd := by
  obtain ⟨⟨h0, h1, h2, h3⟩, h4⟩ := h
  unfold next_work_start replaceHM timeOfDay
  split
  · omega
  · split
    · omega
    · omega

/-- The skip-forward move of lines 197 and 204 strictly advances the
cursor (to work-start on the following day) whenever the hours are sane. -/
theorem skipForward_advance {cfg : SchedConfig} (h : SaneHours cfg) (c : ℤ) :
    c + 1 ≤ next_work_start cfg (replaceHM c cfg.workEnd + 1) ∧
      timeOfDay (next_work_start cfg (replaceHM c cfg.workEnd + 1)) =
        cfg.workStart := by
  obtain ⟨h0, h1, h2, h3⟩ := h
  unfold next_work_start replaceHM timeOfDay
  constructor
  · split
    · omega
    · split
      · omega
      · omega
  · split
    · omega
    · split
      · omega
      · omega

/-! # Lemmas: the daily cap -/

theorem capOf_nonneg {cfg : SchedConfig} (h : 0 ≤ cfg.dailyHours) :
    0 ≤ capOf cfg :=
  Int.tdiv_nonneg
    (by have := Rat.num_nonneg.mpr h; positivity)
    (by positivity)

theorem capOf_le {cfg : SchedConfig} (h : 0 ≤ cfg.dailyHours) :
    (capOf cfg : ℚ) ≤ cfg.dailyHours * 60 := by
  unfold capOf
  have hnum : 0 ≤ cfg.dailyHours.num := Rat.num_nonneg.mpr h
  have hdenZ : (0 : ℤ) < (cfg.dailyHours.den : ℤ) := by
    exact_mod_cast cfg.dailyHours.den_pos
  rw [Int.tdiv_eq_ediv (by positivity) (by omega)]
  have hmul : cfg.dailyHours.num * 60 / (cfg.dailyHours.den : ℤ) *
      (cfg.dailyHours.den : ℤ) ≤ cfg.dailyHours.num * 60 :=
    Int.ediv_mul_le _ (by omega)
  have key : ((cfg.dailyHours.num * 60 : ℤ) : ℚ) /
      ((cfg.dailyHours.den : ℤ) : ℚ) = cfg.dailyHours * 60 := by
    push_cast
    rw [mul_div_right_comm, Rat.num_div_den]
  have hdenQ : (0 : ℚ) < ((cfg.dailyHours.den : ℤ) : ℚ) := by exact_mod_cast hdenZ
  rw [← key, le_div_iff₀ hdenQ]
  exact_mod_cast hmul

theorem daySum_append (d : ℤ) (bs : List Block) (b : Block) :
    daySum d (bs ++ [b]) =
      daySum d bs + (if dayOf b.start = d then b.stop - b.start else 0) := by
  unfold daySum
  rw [List.filter_append]
  simp only [List.filter]
  split <;> simp_all

/-! # Lemmas: loop and fold invariants -/

theorem taskLoop_inv {cfg : SchedConfig} {t : Task} {la : ℤ}
    (P : LoopState → Prop)
    (hstep : ∀ s, 0 < s.remaining → s.cursor ≤ la → P s → P (taskStep cfg t s)) :
    ∀ {fuel : ℕ} {s s' : LoopState}, P s →
      taskLoop cfg t la fuel s = some s' → P s' := by
  intro fuel
  induction fuel with
  | zero =>
      intro s s' hP h
      rw [taskLoop] at h
      split at h
      · exact absurd h (by simp)
      · cases h; exact hP
  | succ n ih =>
      intro s s' hP h
      rw [taskLoop] at h
      split at h
      · next hg => exact ih (hstep s hg.1 hg.2 hP) h
      · cases h; exact hP

theorem scheduleTask_inv {cfg : SchedConfig} {now : ℤ} {fuel : ℕ}
    {st st' : SchedState} {t : Task} (P : LoopState → Prop)
    (hstep : ∀ s, 0 < s.remaining → s.cursor ≤ lastAllowed now t → P s →
      P (taskStep cfg t s))
    (hinit : P { remaining := initialRemaining t,
                 cursor := next_work_start cfg now,
                 budget := st.budget, blocks := st.blocks })
    (h : scheduleTask cfg now fuel st t = some st') :
    ∃ s' : LoopState, st'.budget = s'.budget ∧ st'.blocks = s'.blocks ∧ P s' := by
  unfold scheduleTask at h
  cases hl : taskLoop cfg t (lastAllowed now t) fuel
      { remaining := initialRemaining t, cursor := next_work_start cfg now,
        budget := st.budget, blocks := st.blocks } with
  | none => rw [hl] at h; exact absurd h (by simp)
  | some s' =>
      rw [hl] at h
      cases h
      exact ⟨s', rfl, rfl, taskLoop_inv P hstep hinit hl⟩

theorem foldl_bind_none {α : Type} (f : SchedState → α → Option SchedState) :
    ∀ (ts : List α), ts.foldl (fun acc t => acc.bind (fun s => f s t)) none = none
  | [] => rfl
  | _ :: ts => foldl_bind_none f ts

theorem plan_fold_inv {cfg : SchedConfig} {now : ℤ} {fuel : ℕ}
    (Q : SchedState → Prop)
    (hQ : ∀ st t st', Q st → scheduleTask cfg now fuel st t = some st' → Q st') :
    ∀ (ts : List Task) (st st' : SchedState), Q st →
      ts.foldl (fun acc t => acc.bind (fun s => scheduleTask cfg now fuel s t))
          (some st) = some st' →
      Q st' := by
  intro ts
  induction ts with
  | nil => intro st st' hQ0 h; cases h; exact hQ0
  | cons t rest ih =>
      intro st st' hQ0 h
      cases hs : scheduleTask cfg now fuel st t with
      | none =>
          rw [List.foldl_cons, Option.some_bind, hs, foldl_bind_none] at h
          exact absurd h (by simp)
      | some st1 =>
          rw [List.foldl_cons, Option.some_bind, hs] at h
          exact ih st1 st' (hQ st t st1 hQ0 hs) h

/-- A state invariant established by every `plan_blocks` run: lift a
per-task loop invariant through the whole fold. -/
theorem plan_blocks_inv {cfg : SchedConfig} {now : ℤ} {fuel : ℕ}
    (Q : SchedState → Prop)
    (hstep : ∀ (t : Task) (st : SchedState), Q st →
      ∀ s, 0 < s.remaining → s.cursor ≤ lastAllowed now t →
        (Q { budget := s.budget, blocks := s.blocks } →
          Q { budget := (taskStep cfg t s).budget,
              blocks := (taskStep cfg t s).blocks }))
    (hinit : Q { budget := fun _ => 0, blocks := [] }) :
    ∀ {tasks : List Task} {bs : List Block},
      plan_blocks cfg now fuel tasks = some bs →
      ∃ st : SchedState, st.blocks = bs ∧ Q st := by
  intro tasks bs h
  unfold plan_blocks at h
  cases hf : (sortTasks now tasks).foldl
      (fun acc t => acc.bind (fun s => scheduleTask cfg now fuel s t))
      (some { budget := fun _ => 0, blocks := [] }) with
  | none => rw [hf] at h; exact absurd h (by simp)
  | some st =>
      rw [hf] at h
      cases h
      refine ⟨st, rfl, ?_⟩
      refine plan_fold_inv Q ?_ (sortTasks now tasks) _ st hinit hf
      intro st0 t st' hQ0 hs
      have := scheduleTask_inv (t := t)
        (P := fun s => Q { budget := s.budget, blocks := s.blocks })
        (fun s h1 h2 hP => hstep t st0 hQ0 s h1 h2 hP) hQ0 hs
      obtain ⟨s', hb, hbl, hP⟩ := this
      have : st' = { budget := s'.budget, blocks := s'.blocks } := by
        cases st'; simp_all
      rw [this]
      exact hP

/-- One loop iteration keeps `day_budget` equal to the per-day block sums
and below the cap. -/
theorem taskStep_cap {cfg : SchedConfig} {t : Task} {s : LoopState}
    (hsum : ∀ d, s.budget d = daySum d s.blocks)
    (hcap : ∀ d, s.budget d ≤ capOf cfg) :
    (∀ d, (taskStep cfg t s).budget d = daySum d (taskStep cfg t s).blocks) ∧
      (∀ d, (taskStep cfg t s).budget d ≤ capOf cfg) := by
  unfold taskStep
  dsimp only
  split_ifs with h1 h2
  · exact ⟨hsum, hcap⟩
  · exact ⟨hsum, hcap⟩
  · have hle : min cfg.blockMinutes
        (min s.remaining (capOf cfg - s.budget (dayOf s.cursor))) ≤
        capOf cfg - s.budget (dayOf s.cursor) :=
      le_trans (min_le_right _ _) (min_le_right _ _)
    constructor
    · intro d
      simp only [daySum_append]
      by_cases hd : d = dayOf s.cursor
      · subst hd
        simp only [eq_self_iff_true, ite_true]
        have h := hsum (dayOf s.cursor)
        omega
      · have hd' : ¬ dayOf s.cursor = d := fun hc => hd hc.symm
        simp only [if_neg hd, if_neg hd', add_zero]
        exact hsum d
    · intro d
      by_cases hd : d = dayOf s.cursor
      · subst hd
        simp only [eq_self_iff_true, ite_true]
        omega
      · simp only [if_neg hd]
        exact hcap d

theorem plan_blocks_daySum {cfg : SchedConfig} {now : ℤ} {fuel : ℕ}
    {tasks : List Task} {bs : List Block}
    (hdh : 0 ≤ cfg.dailyHours) (h : plan_blocks cfg now fuel tasks = some bs) :
    ∀ d, daySum d bs ≤ capOf cfg := by
  obtain ⟨st, hbs, hQ⟩ :=
    plan_blocks_inv (DayCapInv cfg)
      (by
        intro t st hQ0 s h1 h2 hP
        exact taskStep_cap hP.1 hP.2)
      (by
        constructor
        · intro d; simp [daySum]
        · intro d; exact capOf_nonneg hdh)
      h
  intro d
  rw [← hbs]
  rw [← hQ.1 d]
  exact hQ.2 d

/-- Per-block upper bound on the due date, preserved by one iteration. -/
theorem taskStep_due {cfg : SchedConfig} {t : Task} {s : LoopState}
    {la : ℤ} (hla : s.cursor ≤ la)
    (hbm : cfg.blockMinutes ≤ 60)
    (hdue : ∀ dd, t.due = some dd → la = dd - 60)
    (hP : ∀ b ∈ s.blocks, ∀ dd, b.due = some dd → b.stop ≤ dd) :
    ∀ b ∈ (taskStep cfg t s).blocks, ∀ dd, b.due = some dd → b.stop ≤ dd := by
  unfold taskStep
  dsimp only
  split_ifs with h1 h2
  · exact hP
  · exact hP
  · intro b hb dd hbd
    simp only [List.mem_append, List.mem_singleton] at hb
    rcases hb with hb | hb
    · exact hP b hb dd hbd
    · subst hb
      simp only at hbd ⊢
      have hla' := hdue dd hbd
      have := min_le_left cfg.blockMinutes
        (min s.remaining (capOf cfg - s.budget (dayOf s.cursor)))
      omega

/-! # Claim C2: the global daily cap -/

/-- **C2.**  For every task list and every configuration (with a
nonnegative daily-hours budget, the only meaning of "max hours per day"),
in each planning pass the sum of block minutes over all blocks whose start
falls on one calendar date — across all tasks — never exceeds
`daily_hours × 60`.  The shared `day_budget` accumulator enforces a global
per-day cap, not a per-task one. -/
theorem C2_per_day_cap (cfg : SchedConfig) (now : ℤ) (fuel : ℕ)
    (tasks : List Task) (bs : List Block) (d : ℤ)
    (hdh : 0 ≤ cfg.dailyHours)
    (h : plan_blocks cfg now fuel tasks = some bs) :
    ((daySum d bs : ℤ) : ℚ) ≤ cfg.dailyHours * 60 := by
  have h1 : daySum d bs ≤ capOf cfg := plan_blocks_daySum hdh h d
  have h2 : ((daySum d bs : ℤ) : ℚ) ≤ ((capOf cfg : ℤ) : ℚ) := by
    exact_mod_cast h1
  exact le_trans h2 (capOf_le hdh)

/-- Witness for C2 at the module defaults: two tasks of one hour each on
one day fill exactly the two-hour cap. -/
theorem C2_per_day_cap_witness :
    (0 : ℚ) ≤ defaultConfig.dailyHours ∧
    plan_blocks defaultConfig 540 100 [taskP1, taskP2] =
      some [{ task_id := "a", title := "a", start := 540, stop := 590,
              due := none, source := none },
            { task_id := "a", title := "a", start := 600, stop := 610,
              due := none, source := none },
            { task_id := "b", title := "b", start := 540, stop := 590,
              due := none, source := none },
            { task_id := "b", title := "b", start := 600, stop := 610,
              due := none, source := none }] ∧
    ((daySum 0
        [{ task_id := "a", title := "a", start := 540, stop := 590,
           due := none, source := none },
         { task_id := "a", title := "a", start := 600, stop := 610,
           due := none, source := none },
         { task_id := "b", title := "b", start := 540, stop := 590,
           due := none, source := none },
         { task_id := "b", title := "b", start := 600, stop := 610,
           due := none, source := none }] : ℤ) : ℚ) ≤
      defaultConfig.dailyHours * 60 :=
  ⟨by norm_num [defaultConfig], by decide,
    C2_per_day_cap defaultConfig 540 100 [taskP1, taskP2] _ 0
      (by norm_num [defaultConfig]) (by decide)⟩

/-! # Claim C5: due dates are respected -/

/-- **C5.**  For every task with a due date, every block the scheduler
emits for it ends no later than the due date: the loop admits a block only
while the cursor is at most `due - 1 hour`, and a block is at most
`BLOCK_MINUTES` long, which (being `50` in the source, and in any
configuration with blocks of at most an hour) is at most the hour of
slack. -/
theorem C5_block_ends_by_due (cfg : SchedConfig) (now : ℤ) (fuel : ℕ)
    (tasks : List Task) (bs : List Block)
    (hbm : cfg.blockMinutes ≤ 60)
    (h : plan_blocks cfg now fuel tasks = some bs) :
    ∀ b ∈ bs, ∀ dd, b.due = some dd → b.stop ≤ dd := by
  obtain ⟨st, hbs, hQ⟩ :=
    plan_blocks_inv
      (fun st => ∀ b ∈ st.blocks, ∀ dd, b.due = some dd → b.stop ≤ dd)
      (by
        intro t st hQ0 s h1 h2 hP
        refine taskStep_due h2 hbm ?_ hP
        intro dd hdd
        simp [lastAllowed, hdd])
      (by intro b hb; cases hb)
      h
  rw [← hbs]
  exact hQ

/-- Witness for C5: a task due at minute 2000 gets blocks ending 590 and
610, both before the due date. -/
theorem C5_block_ends_by_due_witness :
    defaultConfig.blockMinutes ≤ 60 ∧
    plan_blocks defaultConfig 540 100 [dueTaskNear] =
      some [{ task_id := "C", title := "C", start := 540, stop := 590,
              due := some 2000, source := none },
            { task_id := "C", title := "C", start := 600, stop := 610,
              due := some 2000, source := none }] ∧
    ({ task_id := "C", title := "C", start := 540, stop := 590,
       due := some 2000, source := none } : Block).stop ≤ 2000 :=
  ⟨by decide, by decide,
    C5_block_ends_by_due defaultConfig 540 100 [dueTaskNear]
      [{ task_id := "C", title := "C", start := 540, stop := 590,
         due := some 2000, source := none },
       { task_id := "C", title := "C", start := 600, stop := 610,
         due := some 2000, source := none }]
      (by decide) (by decide)
      { task_id := "C", title := "C", start := 540, stop := 590,
        due := some 2000, source := none }
      (by decide) 2000 rfl⟩

/-! # Claim C4: shape of emitted blocks -/

/-- Keeping a `SaneConfig` also keeps `SaneHours`. -/
theorem SaneConfig.hours {cfg : SchedConfig} (h : SaneConfig cfg) :
    SaneHours cfg := h.1

/-- One loop iteration keeps the cursor's time of day within
`[work_start, work_end + 10]` and every emitted block well-shaped. -/
theorem taskStep_shape {cfg : SchedConfig} {t : Task} {s : LoopState}
    (hc : SaneConfig cfg) (hrem : 0 < s.remaining)
    (hlo : cfg.workStart ≤ timeOfDay s.cursor)
    (hhi : timeOfDay s.cursor ≤ cfg.workEnd + 10)
    (hbs : ∀ b ∈ s.blocks, BlockShape cfg b) :
    (cfg.workStart ≤ timeOfDay (taskStep cfg t s).cursor ∧
      timeOfDay (taskStep cfg t s).cursor ≤ cfg.workEnd + 10) ∧
    ∀ b ∈ (taskStep cfg t s).blocks, BlockShape cfg b := by
  obtain ⟨⟨h0, h1, h2, h3⟩, h4⟩ := hc
  have hskip := skipForward_advance ⟨h0, h1, h2, h3⟩ s.cursor
  unfold taskStep
  dsimp only
  split_ifs with hc1 hc2
  · exact ⟨by rw [hskip.2]; omega, hbs⟩
  · exact ⟨by rw [hskip.2]; omega, hbs⟩
  · set len := min cfg.blockMinutes
      (min s.remaining (capOf cfg - s.budget (dayOf s.cursor))) with hlendef
    have hlen1 : 1 ≤ len := le_min (by omega) (le_min (by omega) (by omega))
    have hlenbm : len ≤ cfg.blockMinutes := min_le_left _ _
    have hnn := timeOfDay_nonneg s.cursor
    have htodend : timeOfDay (s.cursor + len) = timeOfDay s.cursor + len :=
      timeOfDay_add (by omega) (by omega)
    rw [htodend] at hc2
    constructor
    · have hassoc : s.cursor + len + 10 = s.cursor + (len + 10) := by ring
      rw [hassoc, timeOfDay_add (by omega) (by omega)]
      omega
    · intro b hb
      simp only [List.mem_append, List.mem_singleton] at hb
      rcases hb with hb | hb
      · exact hbs b hb
      · subst hb
        refine ⟨?_, ?_, ?_, ?_⟩
        · show s.cursor + len - s.cursor ≤ cfg.blockMinutes
          omega
        · show timeOfDay (s.cursor + len) ≤ cfg.workEnd
          rw [htodend]
          omega
        · exact hlo
        · show s.cursor < s.cursor + len
          omega

/-- `scheduleTask` preserves block shape (the fresh cursor starts inside
the work window by `next_work_start`). -/
theorem scheduleTask_shape {cfg : SchedConfig} {now : ℤ} {fuel : ℕ}
    {st st' : SchedState} {t : Task} (hc : SaneConfig cfg)
    (hbs : ∀ b ∈ st.blocks, BlockShape cfg b)
    (h : scheduleTask cfg now fuel st t = some st') :
    ∀ b ∈ st'.blocks, BlockShape cfg b := by
  obtain ⟨s', hb, hbl, hP⟩ :=
    scheduleTask_inv
      (P := fun s => (cfg.workStart ≤ timeOfDay s.cursor ∧
        timeOfDay s.cursor ≤ cfg.workEnd + 10) ∧
        ∀ b ∈ s.blocks, BlockShape cfg b)
      (fun s h1 _ hP => taskStep_shape hc h1 hP.1.1 hP.1.2 hP.2)
      (by
        refine ⟨⟨(next_work_start_tod hc now).1, ?_⟩, hbs⟩
        show timeOfDay (next_work_start cfg now) ≤ cfg.workEnd + 10
        have := (next_work_start_tod hc now).2
        omega)
      h
  rw [hbl]
  exact hP.2

/-- **C4 (counterexample).**  With the UI-reachable configuration
work 5:00–23:00, 12 daily hours, 50-minute blocks, and "now" at 22:10, the
second block ends exactly at midnight, after which the cursor is at 0:10
the next day and the third block starts at local time 0:10 — before
work-start — so "start's local time-of-day ≥ work_start" fails for this
list of tasks and configuration. -/
theorem C4_counterexample :
    (plan_blocks nightConfig 1330 40 [nightTask]).map
        (List.map (fun b => (b.start, b.stop))) =
      some [(1330, 1380), (1390, 1440), (1450, 1500), (1510, 1560),
            (1570, 1610)] ∧
    ¬ nightConfig.workStart ≤ timeOfDay 1450 :=
  ⟨by decide, by decide⟩

/-- **C4 (amended).**  For every task list and every configuration whose
work window neither collapses (`work_start ≤ work_end`, positive block
length) nor reaches within a block-plus-break of midnight
(`work_end + 10 + block_length < 1440` — the defaults give `1320`), every
emitted block `b` satisfies `b.end - b.start ≤ block_length_minutes`,
`b.end.time() ≤ work_end`, `b.start.time() ≥ work_start` and
`b.end > b.start`. -/
theorem C4_block_shape (cfg : SchedConfig) (now : ℤ) (fuel : ℕ)
    (tasks : List Task) (bs : List Block)
    (hc : SaneConfig cfg) (h : plan_blocks cfg now fuel tasks = some bs) :
    ∀ b ∈ bs, BlockShape cfg b := by
  unfold plan_blocks at h
  cases hf : (sortTasks now tasks).foldl
      (fun acc t => acc.bind (fun s => scheduleTask cfg now fuel s t))
      (some { budget := fun _ => 0, blocks := [] }) with
  | none => rw [hf] at h; exact absurd h (by simp)
  | some st =>
      rw [hf] at h
      cases h
      have := plan_fold_inv (fun st => ∀ b ∈ st.blocks, BlockShape cfg b)
        (fun st0 t st' hQ0 hs => scheduleTask_shape hc hQ0 hs)
        (sortTasks now tasks) _ st (by intro b hb; cases hb) hf
      exact this

/-- Witness for the amended C4 at the module defaults. -/
theorem C4_block_shape_witness :
    SaneConfig defaultConfig ∧
    plan_blocks defaultConfig 540 100 [taskP1] =
      some [{ task_id := "a", title := "a", start := 540, stop := 590,
              due := none, source := none },
            { task_id := "a", title := "a", start := 600, stop := 610,
              due := none, source := none }] ∧
    BlockShape defaultConfig
      { task_id := "a", title := "a", start := 540, stop := 590,
        due := none, source := none } :=
  ⟨by refine ⟨⟨?_, ?_, ?_, ?_⟩, ?_⟩ <;> decide, by decide,
    C4_block_shape defaultConfig 540 100 [taskP1]
      [{ task_id := "a", title := "a", start := 540, stop := 590,
         due := none, source := none },
       { task_id := "a", title := "a", start := 600, stop := 610,
         due := none, source := none }]
      (by refine ⟨⟨?_, ?_, ?_, ?_⟩, ?_⟩ <;> decide) (by decide)
      { task_id := "a", title := "a", start := 540, stop := 590,
        due := none, source := none }
      (by decide)⟩

/-! # Claim C1: is the cursor shared across tasks? -/

/-- The chain relation of the amended claim: of two blocks of the same
task, the later one starts at least 10 minutes (the break) after the
earlier one ends. -/
def SameTaskChain (a b : Block) : Prop :=
  a.task_id = b.task_id → a.stop + 10 ≤ b.start

/-- One loop iteration of task `t` preserves: blocks of one task are
chained, every block of `t` placed so far ends at least a break before the
cursor, and every block is `t`'s or was already there. -/
theorem taskStep_chain {cfg : SchedConfig} {t : Task} {s : LoopState}
    {old : List Block} (hc : SaneHours cfg) (hrem : 0 < s.remaining)
    (hpw : s.blocks.Pairwise SameTaskChain)
    (hcur : ∀ b ∈ s.blocks, b.task_id = t.id → b.stop + 10 ≤ s.cursor)
    (hold : ∀ b ∈ s.blocks, b.task_id = t.id ∨ b ∈ old) :
    (taskStep cfg t s).blocks.Pairwise SameTaskChain ∧
      (∀ b ∈ (taskStep cfg t s).blocks, b.task_id = t.id →
        b.stop + 10 ≤ (taskStep cfg t s).cursor) ∧
      (∀ b ∈ (taskStep cfg t s).blocks, b.task_id = t.id ∨ b ∈ old) := by
  have hskip := (skipForward_advance hc s.cursor).1
  obtain ⟨h0, h1, h2, h3⟩ := hc
  unfold taskStep
  dsimp only
  split_ifs with hc1 hc2
  · refine ⟨hpw, ?_, hold⟩
    intro b hb hbt
    show b.stop + 10 ≤ next_work_start cfg (replaceHM s.cursor cfg.workEnd + 1)
    have := hcur b hb hbt
    omega
  · refine ⟨hpw, ?_, hold⟩
    intro b hb hbt
    show b.stop + 10 ≤ next_work_start cfg (replaceHM s.cursor cfg.workEnd + 1)
    have := hcur b hb hbt
    omega
  · set len := min cfg.blockMinutes
      (min s.remaining (capOf cfg - s.budget (dayOf s.cursor))) with hlendef
    have hlen1 : 1 ≤ len := le_min (by omega) (le_min (by omega) (by omega))
    refine ⟨?_, ?_, ?_⟩
    · rw [List.pairwise_append]
      refine ⟨hpw, by simp [SameTaskChain], ?_⟩
      intro a ha b hb
      simp only [List.mem_singleton] at hb
      subst hb
      intro hab
      exact hcur a ha hab
    · intro b hb hbt
      simp only [List.mem_append, List.mem_singleton] at hb
      rcases hb with hb | hb
      · have := hcur b hb hbt
        show b.stop + 10 ≤ s.cursor + len + 10
        omega
      · subst hb
        show s.cursor + len + 10 ≤ s.cursor + len + 10
        omega
    · intro b hb
      simp only [List.mem_append, List.mem_singleton] at hb
      rcases hb with hb | hb
      · exact hold b hb
      · subst hb
        exact Or.inl rfl

/-- `scheduleTask` keeps blocks chained per task, given that the incoming
blocks belong to previously processed tasks (none of them `t`'s). -/
theorem scheduleTask_chain {cfg : SchedConfig} {now : ℤ} {fuel : ℕ}
    {st st' : SchedState} {t : Task} (hc : SaneHours cfg)
    (hpw : st.blocks.Pairwise SameTaskChain)
    (hnot : ∀ b ∈ st.blocks, b.task_id ≠ t.id)
    (h : scheduleTask cfg now fuel st t = some st') :
    st'.blocks.Pairwise SameTaskChain ∧
      ∀ b ∈ st'.blocks, b.task_id = t.id ∨ b ∈ st.blocks := by
  obtain ⟨s', hb, hbl, hP⟩ :=
    scheduleTask_inv
      (P := fun s => s.blocks.Pairwise SameTaskChain ∧
        (∀ b ∈ s.blocks, b.task_id = t.id → b.stop + 10 ≤ s.cursor) ∧
        (∀ b ∈ s.blocks, b.task_id = t.id ∨ b ∈ st.blocks))
      (fun s h1 _ hP => taskStep_chain hc h1 hP.1 hP.2.1 hP.2.2)
      (by
        refine ⟨hpw, ?_, fun b hb => Or.inr hb⟩
        intro b hb hbt
        exact absurd hbt (hnot b hb))
      h
  rw [hbl]
  exact ⟨hP.1, hP.2.2⟩

/-- The fold over a task list with pairwise-distinct ids keeps blocks
chained per task. -/
theorem chain_fold {cfg : SchedConfig} {now : ℤ} {fuel : ℕ}
    (hc : SaneHours cfg) :
    ∀ (ts : List Task) (st st' : SchedState),
      (ts.map Task.id).Nodup →
      st.blocks.Pairwise SameTaskChain →
      (∀ b ∈ st.blocks, b.task_id ∉ ts.map Task.id) →
      ts.foldl (fun acc t => acc.bind (fun s => scheduleTask cfg now fuel s t))
          (some st) = some st' →
      st'.blocks.Pairwise SameTaskChain := by
  intro ts
  induction ts with
  | nil => intro st st' _ hpw _ h; cases h; exact hpw
  | cons t rest ih =>
      intro st st' hnd hpw hids h
      cases hs : scheduleTask cfg now fuel st t with
      | none =>
          rw [List.foldl_cons, Option.some_bind, hs, foldl_bind_none] at h
          exact absurd h (by simp)
      | some st1 =>
          rw [List.foldl_cons, Option.some_bind, hs] at h
          have hnott : ∀ b ∈ st.blocks, b.task_id ≠ t.id := by
            intro b hb
            have := hids b hb
            simp only [List.map_cons, List.mem_cons] at this
            exact fun hbt => this (Or.inl hbt)
          obtain ⟨hpw1, hmem1⟩ := scheduleTask_chain hc hpw hnott hs
          refine ih st1 st' ?_ hpw1 ?_ h
          · simp only [List.map_cons, List.nodup_cons] at hnd
            exact hnd.2
          · intro b hb
            rcases hmem1 b hb with hbt | hbold
            · rw [hbt]
              simp only [List.map_cons, List.nodup_cons] at hnd
              exact hnd.1
            · have := hids b hbold
              simp only [List.map_cons, List.mem_cons] at this
              exact fun hmem => this (Or.inr hmem)

/-- **C1 (counterexample).**  At the module defaults with `now = 540`
(9:00 on day 0) and two one-hour tasks of priorities 1 and 2, the first
task's blocks end at 9:50 and 10:10 and its cursor ends at 10:20 — yet the
second task's first block starts again at 9:00, overlapping the first
task's blocks.  The cursor was reset to `next_work_start(now)` at line
189, so it is not a single running value shared across tasks. -/
theorem C1_counterexample :
    (plan_blocks defaultConfig 540 100 [taskP1, taskP2]).map
        (List.map (fun b => (b.task_id, b.start, b.stop))) =
      some [("a", 540, 590), ("a", 600, 610), ("b", 540, 590),
            ("b", 600, 610)] ∧
    ¬ ((610 : ℤ) + 10 ≤ 540) :=
  ⟨by decide, by decide⟩

/-- **C1 (amended).**  The cursor is *not* shared across tasks: line 189
resets it to `next_work_start(now)` at the start of every task, and only
the `day_budget` dictionary is carried over.  Within one task the cursor
is a running value that never moves backward, so (for sane work hours and
pairwise-distinct task ids) any two blocks of the same task are emitted in
chronological order, the later starting at least the 10-minute break after
the earlier ends. -/
theorem C1_cursor_reset_per_task (cfg : SchedConfig) (now : ℤ) (fuel : ℕ)
    (tasks : List Task) (bs : List Block)
    (hc : SaneHours cfg) (hid : (tasks.map Task.id).Nodup)
    (h : plan_blocks cfg now fuel tasks = some bs) :
    bs.Pairwise SameTaskChain := by
  unfold plan_blocks at h
  cases hf : (sortTasks now tasks).foldl
      (fun acc t => acc.bind (fun s => scheduleTask cfg now fuel s t))
      (some { budget := fun _ => 0, blocks := [] }) with
  | none => rw [hf] at h; exact absurd h (by simp)
  | some st =>
      rw [hf] at h
      cases h
      have hperm : List.Perm (sortTasks now tasks) tasks :=
        List.perm_insertionSort _ _
      have hnd : ((sortTasks now tasks).map Task.id).Nodup :=
        ((hperm.map Task.id).symm.nodup_iff).mp hid
      refine chain_fold hc (sortTasks now tasks)
        { budget := fun _ => 0, blocks := [] } st hnd ?_ ?_ hf
      · exact List.Pairwise.nil
      · intro b hb
        cases hb

/-- Witness for the amended C1 at the module defaults. -/
theorem C1_cursor_reset_per_task_witness :
    SaneHours defaultConfig ∧
    ([taskP1, taskP2].map Task.id).Nodup ∧
    plan_blocks defaultConfig 540 100 [taskP1, taskP2] =
      some [{ task_id := "a", title := "a", start := 540, stop := 590,
              due := none, source := none },
            { task_id := "a", title := "a", start := 600, stop := 610,
              due := none, source := none },
            { task_id := "b", title := "b", start := 540, stop := 590,
              due := none, source := none },
            { task_id := "b", title := "b", start := 600, stop := 610,
              due := none, source := none }] ∧
    List.Pairwise SameTaskChain
      [{ task_id := "a", title := "a", start := 540, stop := 590,
         due := none, source := none },
       { task_id := "a", title := "a", start := 600, stop := 610,
         due := none, source := none },
       { task_id := "b", title := "b", start := 540, stop := 590,
         due := none, source := none },
       { task_id := "b", title := "b", start := 600, stop := 610,
         due := none, source := none }] :=
  ⟨⟨by decide, by decide, by decide, by decide⟩, by decide, by decide,
    C1_cursor_reset_per_task defaultConfig 540 100 [taskP1, taskP2] _
      ⟨by decide, by decide, by decide, by decide⟩ (by decide) (by decide)⟩

/-! # Claim C10: termination of the scheduler -/

/-- The loop body fixes `stuckState`: the tentative block crosses the
(early) work end, and the skip-forward lands exactly back on the cursor. -/
theorem taskStep_stuck :
    taskStep invertedConfig invertedTask stuckState = stuckState := rfl

/-- Hence the per-task `while` loop runs out of any amount of fuel: in the
Python source this is an infinite loop. -/
theorem stuckLoop_none :
    ∀ fuel, taskLoop invertedConfig invertedTask
      (lastAllowed 720 invertedTask) fuel stuckState = none := by
  intro fuel
  induction fuel with
  | zero => rfl
  | succ n ih =>
      rw [taskLoop, if_pos (by decide), taskStep_stuck]
      exact ih

/-- The whole `plan_blocks` run diverges for `invertedConfig`, whatever
the fuel. -/
theorem plan_blocks_inverted_none :
    ∀ fuel, plan_blocks invertedConfig 720 fuel [invertedTask] = none := by
  intro fuel
  show (Option.map _ (Option.map _
      (taskLoop invertedConfig invertedTask (lastAllowed 720 invertedTask)
        fuel stuckState))) = none
  rw [stuckLoop_none fuel]
  rfl

/-- Under `SaneHours`, every loop iteration strictly advances the cursor. -/
theorem taskStep_cursor_advance {cfg : SchedConfig} {t : Task}
    {s : LoopState} (hc : SaneHours cfg) (hrem : 0 < s.remaining) :
    s.cursor + 1 ≤ (taskStep cfg t s).cursor := by
  have hskip := (skipForward_advance hc s.cursor).1
  obtain ⟨h0, h1, h2, h3⟩ := hc
  unfold taskStep
  dsimp only
  split_ifs with hc1 hc2
  · exact hskip
  · exact hskip
  · show s.cursor + 1 ≤ s.cursor + min cfg.blockMinutes
      (min s.remaining (capOf cfg - s.budget (dayOf s.cursor))) + 10
    have : 1 ≤ min cfg.blockMinutes
        (min s.remaining (capOf cfg - s.budget (dayOf s.cursor))) :=
      le_min (by omega) (le_min (by omega) (by omega))
    omega

/-- Fuel adequacy: once the fuel exceeds the distance from the cursor to
the deadline cutoff, the loop finishes. -/
theorem taskLoop_isSome {cfg : SchedConfig} {t : Task} {la : ℤ}
    (hc : SaneHours cfg) :
    ∀ (fuel : ℕ) (s : LoopState), (la + 1 - s.cursor).toNat < fuel →
      (taskLoop cfg t la fuel s).isSome = true := by
  intro fuel
  induction fuel with
  | zero => intro s h; omega
  | succ n ih =>
      intro s h
      rw [taskLoop]
      split
      · next hg =>
          refine ih (taskStep cfg t s) ?_
          have hadv := taskStep_cursor_advance (t := t) hc hg.1
          have hcur := hg.2
          omega
      · rfl

theorem scheduleTask_isSome {cfg : SchedConfig} {now : ℤ} {fuel : ℕ}
    {st : SchedState} {t : Task} (hc : SaneHours cfg)
    (h : (lastAllowed now t + 1 - next_work_start cfg now).toNat < fuel) :
    (scheduleTask cfg now fuel st t).isSome = true := by
  unfold scheduleTask
  cases hl : taskLoop cfg t (lastAllowed now t) fuel
      { remaining := initialRemaining t, cursor := next_work_start cfg now,
        budget := st.budget, blocks := st.blocks } with
  | none =>
      have := taskLoop_isSome (t := t) hc fuel
        { remaining := initialRemaining t, cursor := next_work_start cfg now,
          budget := st.budget, blocks := st.blocks } h
      rw [hl] at this
      exact absurd this (by simp)
  | some s' => rfl

theorem fold_isSome {cfg : SchedConfig} {now : ℤ} {fuel : ℕ}
    (hc : SaneHours cfg) :
    ∀ (ts : List Task) (st : SchedState),
      (∀ t ∈ ts, (lastAllowed now t + 1 - next_work_start cfg now).toNat < fuel) →
      (ts.foldl (fun acc t => acc.bind (fun s => scheduleTask cfg now fuel s t))
          (some st)).isSome = true := by
  intro ts
  induction ts with
  | nil => intro st _; rfl
  | cons t rest ih =>
      intro st hb
      cases hs : scheduleTask cfg now fuel st t with
      | none =>
          have hsome : (scheduleTask cfg now fuel st t).isSome = true :=
            scheduleTask_isSome hc (hb t (by simp))
          rw [hs] at hsome
          exact absurd hsome (by simp)
      | some st1 =>
          rw [List.foldl_cons, Option.some_bind, hs]
          exact ih st1 (fun u hu => hb u (by simp [hu]))

theorem mem_le_foldr_max (f : Task → ℕ) :
    ∀ (l : List Task) (a : ℕ) (t : Task), t ∈ l →
      f t ≤ (l.map f).foldr max a := by
  intro l
  induction l with
  | nil => intro a t h; cases h
  | cons u rest ih =>
      intro a t h
      rcases List.mem_cons.mp h with h | h
      · subst h
        exact le_max_left _ _
      · exact le_trans (ih a t h) (le_max_right _ _)

/-- **C10 (counterexample).**  With work start 12:00 after work end 5:00 —
a configuration the code accepts — the loop body maps its state to itself
while the loop guard holds, so the Python `while` loop never terminates:
the embedded loop exhausts any fuel (here a billion iterations) without
producing a block list. -/
theorem C10_counterexample :
    taskStep invertedConfig invertedTask stuckState = stuckState ∧
    0 < stuckState.remaining ∧
    stuckState.cursor ≤ lastAllowed 720 invertedTask ∧
    plan_blocks invertedConfig 720 1000000000 [invertedTask] = none :=
  ⟨taskStep_stuck, by decide, by decide, plan_blocks_inverted_none _⟩

/-- **C10 (amended).**  For every finite task list and every configuration
with `0 ≤ work_start ≤ work_end ≤ 23:58` and a positive block length, the
scheduler terminates: each iteration either advances the cursor (skip
paths snap to the next day's work start) or places a block, which both
strictly advance the cursor toward the deadline cutoff, so `plan_blocks`
returns a finite block list once the fuel covers the cursor's distance to
each task's cutoff. -/
theorem C10_plan_blocks_terminates (cfg : SchedConfig) (now : ℤ)
    (tasks : List Task) (hc : SaneHours cfg) :
    (plan_blocks cfg now (planFuel cfg now tasks) tasks).isSome = true := by
  unfold plan_blocks
  rw [Option.isSome_map']
  refine fold_isSome hc (sortTasks now tasks) _ ?_
  intro t ht
  have htm : t ∈ tasks := by
    unfold sortTasks at ht
    exact (List.mem_insertionSort _).mp ht
  have hkey : (lastAllowed now t + 1 - next_work_start cfg now).toNat + 1 ≤
      (tasks.map
        (fun u => (lastAllowed now u + 1 - next_work_start cfg now).toNat + 1)).foldr
        max 1 :=
    mem_le_foldr_max
      (fun u => (lastAllowed now u + 1 - next_work_start cfg now).toNat + 1)
      tasks 1 t htm
  unfold planFuel
  omega

/-- Witness for the amended C10 at the module defaults. -/
theorem C10_plan_blocks_terminates_witness :
    SaneHours defaultConfig ∧
    (plan_blocks defaultConfig 540 (planFuel defaultConfig 540 [taskP1])
        [taskP1]).isSome = true :=
  ⟨⟨by decide, by decide, by decide, by decide⟩,
    C10_plan_blocks_terminates defaultConfig 540 [taskP1]
      ⟨by decide, by decide, by decide, by decide⟩⟩

/-! # Claim C3: processing order of the scheduler -/

theorem taskLE_total (now : ℤ) (a b : Task) :
    taskLE now a b = true ∨ taskLE now b a = true := by
  simp only [taskLE, decide_eq_true_eq]
  omega

theorem taskLE_trans (now : ℤ) (a b c : Task) (h1 : taskLE now a b = true)
    (h2 : taskLE now b c = true) : taskLE now a c = true := by
  simp only [taskLE, decide_eq_true_eq] at h1 h2 ⊢
  omega

/-- **C3 (counterexample).**  A no-due task is keyed `now + 30 days`
(line 183), not "last": with `now = 0`, the no-due priority-3 task `B`
is processed *before* the priority-3 task `A` due 45 days out, refuting
"a no-due task is never processed before a task of equal priority that
has a due date". -/
theorem C3_counterexample :
    (sortTasks 0 [dueTaskFar, noDueTask]).map Task.id = ["B", "A"] ∧
    noDueTask.due = none ∧ dueTaskFar.due = some 64800 ∧
    dueTaskFar.priority = noDueTask.priority :=
  ⟨by decide, rfl, rfl, rfl⟩

/-- **C3 (amended).**  The scheduler processes tasks in ascending
lexicographic order of `(priority, due)` where a missing due date is
replaced by the synthetic key `now + 30 days` — so a no-due task sorts
*before* an equal-priority task due more than 30 days out, not last — and
ties are broken by stable input order: the processed list is a permutation
of the input, pairwise ordered under `taskLE`, and any input pair already
in order keeps its relative order. -/
theorem C3_sort_order (now : ℤ) (tasks : List Task) :
    List.Perm (sortTasks now tasks) tasks ∧
    (sortTasks now tasks).Pairwise (fun a b => taskLE now a b = true) ∧
    (∀ a b : Task, taskLE now a b = true → [a, b].Sublist tasks →
      [a, b].Sublist (sortTasks now tasks)) := by
  refine ⟨List.perm_insertionSort _ _, ?_, ?_⟩
  · haveI : IsTotal Task (fun a b => taskLE now a b = true) :=
      ⟨taskLE_total now⟩
    haveI : IsTrans Task (fun a b => taskLE now a b = true) :=
      ⟨taskLE_trans now⟩
    exact List.sorted_insertionSort _ tasks
  · intro a b hab hsub
    exact List.pair_sublist_insertionSort hab hsub

/-- Witness for the amended C3: the pair (no-due task, 45-days-out task)
is in key order in the input and stays in that order in the sorted
output. -/
theorem C3_sort_order_witness :
    taskLE 0 noDueTask dueTaskFar = true ∧
    [noDueTask, dueTaskFar].Sublist [taskP1, noDueTask, taskP2, dueTaskFar] ∧
    [noDueTask, dueTaskFar].Sublist
      (sortTasks 0 [taskP1, noDueTask, taskP2, dueTaskFar]) :=
  ⟨by decide, by decide,
    (C3_sort_order 0 [taskP1, noDueTask, taskP2, dueTaskFar]).2.2
      noDueTask dueTaskFar (by decide) (by decide)⟩

/-! # Claim C6: deduplication -/

theorem keepFirsts_nil : keepFirstOccurrences [] = [] := by
  rw [keepFirstOccurrences]

theorem dedupeAux_eq_keepFirsts :
    ∀ (l : List Task) (seen : List String),
      dedupeAux seen l =
        keepFirstOccurrences
          (l.filter (fun t => decide (normKey t.title ∉ seen))) := by
  intro l
  induction l with
  | nil => intro seen; rw [List.filter_nil, keepFirsts_nil]; rfl
  | cons t rest ih =>
      intro seen
      by_cases hk : normKey t.title ∈ seen
      · rw [dedupeAux, if_pos hk, List.filter_cons]
        rw [if_neg (by simpa using hk)]
        exact ih seen
      · rw [dedupeAux, if_neg hk, List.filter_cons,
          if_pos (by simpa using hk)]
        rw [keepFirstOccurrences, ih (normKey t.title :: seen)]
        refine congrArg (fun l => t :: keepFirstOccurrences l) ?_
        rw [List.filter_filter]
        refine List.filter_congr ?_
        intro u _
        by_cases h1 : normKey u.title = normKey t.title
        · simp [h1]
        · by_cases h2 : normKey u.title ∈ seen
          · simp [h1, h2]
          · simp [h1, h2]

theorem keepFirsts_sublist_of_le :
    ∀ (n : ℕ) (l : List Task), l.length ≤ n →
      (keepFirstOccurrences l).Sublist l := by
  intro n
  induction n with
  | zero =>
      intro l hl
      rw [List.length_eq_zero.mp (Nat.le_zero.mp hl), keepFirsts_nil]
  | succ n ih =>
      intro l hl
      cases l with
      | nil => rw [keepFirsts_nil]
      | cons t rest =>
          rw [keepFirstOccurrences]
          refine List.Sublist.cons₂ t ?_
          refine List.Sublist.trans
            (ih (rest.filter (fun u => normKey u.title ≠ normKey t.title)) ?_)
            (List.filter_sublist rest)
          have := List.length_filter_le
            (fun u => decide (normKey u.title ≠ normKey t.title)) rest
          simp only [List.length_cons] at hl
          omega

theorem keepFirsts_sublist (l : List Task) :
    (keepFirstOccurrences l).Sublist l :=
  keepFirsts_sublist_of_le l.length l le_rfl

theorem keepFirsts_keys_nodup_of_le :
    ∀ (n : ℕ) (l : List Task), l.length ≤ n →
      (keepFirstOccurrences l).Pairwise
        (fun a b => normKey a.title ≠ normKey b.title) := by
  intro n
  induction n with
  | zero =>
      intro l hl
      rw [List.length_eq_zero.mp (Nat.le_zero.mp hl), keepFirsts_nil]
      exact List.Pairwise.nil
  | succ n ih =>
      intro l hl
      cases l with
      | nil =>
          rw [keepFirsts_nil]
          exact List.Pairwise.nil
      | cons t rest =>
          rw [keepFirstOccurrences]
          have hlen : (rest.filter
              (fun u => normKey u.title ≠ normKey t.title)).length ≤ n := by
            have := List.length_filter_le
              (fun u => decide (normKey u.title ≠ normKey t.title)) rest
            simp only [List.length_cons] at hl
            omega
          refine List.Pairwise.cons ?_ (ih _ hlen)
          intro u hu
          have hmem : u ∈ rest.filter
              (fun u => normKey u.title ≠ normKey t.title) :=
            (keepFirsts_sublist _).mem hu
          have := List.of_mem_filter hmem
          simp only [decide_eq_true_eq] at this
          exact fun hcontra => this hcontra.symm

theorem dedupeAux_of_keys_nodup :
    ∀ (l : List Task) (seen : List String),
      l.Pairwise (fun a b => normKey a.title ≠ normKey b.title) →
      (∀ u ∈ l, normKey u.title ∉ seen) →
      dedupeAux seen l = l := by
  intro l
  induction l with
  | nil => intro seen _ _; rfl
  | cons t rest ih =>
      intro seen hpw hseen
      rw [dedupeAux, if_neg (hseen t (by simp))]
      congr 1
      refine ih _ hpw.of_cons ?_
      intro u hu
      simp only [List.mem_cons, not_or]
      refine ⟨?_, hseen u (by simp [hu])⟩
      intro hcontra
      exact (List.rel_of_pairwise_cons hpw hu) hcontra.symm

/-- **C6.**  Deduplication is order-preserving (the output is a sublist of
the input), keeps exactly the first occurrence of each group of tasks with
equal normalized titles (it equals the recursive keep-first-occurrences
description of §4.4), and is idempotent. -/
theorem C6_dedupe (tasks : List Task) :
    dedupe tasks = keepFirstOccurrences tasks ∧
    (dedupe tasks).Sublist tasks ∧
    dedupe (dedupe tasks) = dedupe tasks := by
  have h1 : dedupe tasks = keepFirstOccurrences tasks := by
    rw [dedupe, dedupeAux_eq_keepFirsts]
    congr 1
    rw [show (fun t : Task => decide (normKey t.title ∉ ([] : List String))) =
        (fun _ : Task => true) by
      funext t
      simp]
    exact List.filter_true tasks
  refine ⟨h1, ?_, ?_⟩
  · rw [h1]
    exact keepFirsts_sublist tasks
  · rw [h1, dedupe]
    refine dedupeAux_of_keys_nodup _ _ ?_ ?_
    · exact keepFirsts_keys_nodup_of_le tasks.length tasks le_rfl
    · intro u _
      exact List.not_mem_nil _

/-! # Claim C7: the fallback task -/

/-- **C7.**  For every non-blank text none of whose (stripped) lines
contains an action verb, the extractor emits exactly one fallback task:
title `"Review: "` + first 60 characters of the stripped text with
newlines replaced by spaces + `"..."` exactly when the *original* text is
longer than 60 characters; estimate 60; no due date. -/
theorem C7_fallback (resolver : List Char → Option ℤ) (now : ℤ)
    (text source_name : String)
    (hnb : pyStrip text.data ≠ [])
    (hnv : ∀ ln ∈ (splitlines text.data).map pyStrip,
      hasActionVerb ln = false) :
    rule_based_extract resolver now text source_name =
      [{ id := "",
         title := "Review: " ++
           String.mk (((pyStrip text.data).take 60).map
             (fun c => if c = '\n' then ' ' else c)) ++
           (if 60 < text.data.length then "..." else ""),
         due := none, est_minutes := some 60, tag := none, priority := 3,
         source := some source_name }] := by
  have hempty : (((splitlines text.data).map pyStrip).filter
      (fun l => !l.isEmpty)).filterMap (lineTask resolver now source_name) =
      [] := by
    rw [List.filterMap_eq_nil_iff]
    intro ln hln
    have hmem : ln ∈ (splitlines text.data).map pyStrip :=
      (List.mem_filter.mp hln).1
    simp [lineTask, hnv ln hmem]
  have hne : (pyStrip text.data).isEmpty = false :=
    List.isEmpty_eq_false.mpr hnb
  simp only [rule_based_extract]
  rw [hempty, hne]
  rfl

/-- Witness for C7 on a concrete 88-character verb-free text. -/
theorem C7_fallback_witness :
    pyStrip quietText.data ≠ [] ∧
    rule_based_extract noneResolver 0 quietText "pasted" =
      [{ id := "",
         title := "Review: " ++
           String.mk (((pyStrip quietText.data).take 60).map
             (fun c => if c = '\n' then ' ' else c)) ++
           (if 60 < quietText.data.length then "..." else ""),
         due := none, est_minutes := some 60, tag := none, priority := 3,
         source := some "pasted" }] :=
  ⟨by decide,
    C7_fallback noneResolver 0 quietText "pasted" (by decide) (by decide)⟩

/-! # Claim C8: the extractor's data-model invariant -/

theorem priorityFor_bounds (now : ℤ) (due : Option ℤ) :
    1 ≤ priorityFor now due ∧ priorityFor now due ≤ 5 := by
  unfold priorityFor
  cases due with
  | none => exact ⟨by norm_num, by norm_num⟩
  | some d =>
      dsimp only
      split_ifs <;> omega

theorem roundHalfEven_nonneg {p q : ℤ} (hp : 0 ≤ p) (hq : 0 < q) :
    0 ≤ roundHalfEven p q := by
  unfold roundHalfEven
  dsimp only
  have hf : 0 ≤ p / q := Int.ediv_nonneg hp (le_of_lt hq)
  split_ifs <;> omega

theorem estOf_nonneg (val unit : List Char) : 0 ≤ estOf val unit := by
  unfold estOf
  dsimp only
  have hm : (0:ℤ) ≤ (if (unit.map lowerC).head? = some 'h' then (60:ℤ) else 1) := by
    split_ifs <;> norm_num
  refine roundHalfEven_nonneg (mul_nonneg (Int.natCast_nonneg _) hm) (by positivity)

/-- **C8 (counterexample).**  The duration pattern accepts `"0 min"`, and
`int(round(0 * 1)) = 0`, so the line `"study 0 min"` yields a task with
`estimated_minutes = 0`, violating "`estimated_minutes ≥ 1` when
present". -/
theorem C8_counterexample :
    rule_based_extract noneResolver 0 "study 0 min" "input" =
      [{ id := "", title := "study 0 min", due := none,
         est_minutes := some 0, tag := none, priority := 3,
         source := some "input" }] ∧
    ¬ (1 : ℤ) ≤ 0 :=
  ⟨by decide, by decide⟩

/-- **C8 (amended).**  Every task produced by the rule-based extractor has
`priority ∈ {1,2,3,4,5}` and `estimated_minutes ≥ 0` when present — the
estimate can be `0` when a duration phrase rounds to zero minutes, so the
data-model bound `≥ 1` does not hold. -/
theorem C8_extractor_invariant (resolver : List Char → Option ℤ) (now : ℤ)
    (text source_name : String) :
    ∀ t ∈ rule_based_extract resolver now text source_name,
      (1 ≤ t.priority ∧ t.priority ≤ 5) ∧
      ∀ e, t.est_minutes = some e → 0 ≤ e := by
  intro t ht
  simp only [rule_based_extract] at ht
  split at ht
  · simp only [List.mem_singleton] at ht
    subst ht
    refine ⟨⟨by norm_num, by norm_num⟩, ?_⟩
    intro e he
    simp only [Option.some.injEq] at he
    omega
  · rw [List.mem_filterMap] at ht
    obtain ⟨ln, _, hline⟩ := ht
    simp only [lineTask] at hline
    split at hline
    · simp only [Option.some.injEq] at hline
      subst hline
      refine ⟨priorityFor_bounds now _, ?_⟩
      intro e he
      simp only [Option.some.injEq] at he
      subst he
      cases hes : estSearch ln with
      | none => simp only [hes]; norm_num
      | some p =>
          simp only [hes]
          exact estOf_nonneg p.1 p.2
    · exact absurd hline (by simp)

/-- Witness for the amended C8 at the counterexample's task. -/
theorem C8_extractor_invariant_witness :
    (1 ≤ ({ id := "", title := "study 0 min", due := none,
            est_minutes := some 0, tag := none, priority := 3,
            source := some "input" } : Task).priority ∧
      ({ id := "", title := "study 0 min", due := none,
         est_minutes := some 0, tag := none, priority := 3,
         source := some "input" } : Task).priority ≤ 5) ∧
    (0 : ℤ) ≤ 0 :=
  ⟨(C8_extractor_invariant noneResolver 0 "study 0 min" "input"
      { id := "", title := "study 0 min", due := none,
        est_minutes := some 0, tag := none, priority := 3,
        source := some "input" } (by decide)).1,
   (C8_extractor_invariant noneResolver 0 "study 0 min" "input"
      { id := "", title := "study 0 min", due := none,
        est_minutes := some 0, tag := none, priority := 3,
        source := some "input" } (by decide)).2 0 rfl⟩

/-! # Claim C9: the §8 scenario line -/

/-- **C9 (counterexample).**  On the scenario line the due-phrase matcher
captures `"Lab 5"` (the `submit` cue is followed by `Lab 5`, which matches
the word-then-number date shape) — not any phrase containing `Oct 3` or
`11:59pm`.  A resolver that cannot parse `"Lab 5"` (as the spec requires:
"failure to parse yields no value") therefore leaves the task with no due
date at all, refuting "due resolved to October 3 at 23:59". -/
theorem C9_counterexample :
    dueSearch scenarioLine.data = some ("Lab 5".data) ∧
    rule_based_extract noneResolver 0 scenarioLine "input" =
      [{ id := "", title := scenarioLine, due := none,
         est_minutes := some 120, tag := some "CS61", priority := 3,
         source := some "input" }] :=
  ⟨by decide, by decide⟩

/-- **C9 (amended).**  For every resolver and every "now", the scenario
line yields exactly one task with tag `CS61` and `estimated_minutes 120`,
whose due date is whatever the external resolver returns for the captured
phrase `"Lab 5"` (and whose priority follows from that): the time
`11:59pm` is never passed to the resolver, so no faithful resolver can
produce October 3, 23:59. -/
theorem C9_scenario (resolver : List Char → Option ℤ) (now : ℤ) :
    rule_based_extract resolver now scenarioLine "input" =
      [{ id := "", title := scenarioLine, due := resolver "Lab 5".data,
         est_minutes := some 120, tag := some "CS61",
         priority := priorityFor now (resolver "Lab 5".data),
         source := some "input" }] := rfl

/-- Witness for the amended C9 with the nothing-parses resolver. -/
theorem C9_scenario_witness :
    rule_based_extract noneResolver 0 scenarioLine "input" =
      [{ id := "", title := scenarioLine, due := noneResolver "Lab 5".data,
         est_minutes := some 120, tag := some "CS61",
         priority := priorityFor 0 (noneResolver "Lab 5".data),
         source := some "input" }] :=
  C9_scenario noneResolver 0

end StudentAgent
